import Mathlib

/-!
Verification of the sitemap-reorganizer last-modified resolution core
(src/sitemap-reorganizer.py) against its design specification.

The Python source is shallowly embedded below.  Network activity is
modelled by a function from URL strings to an optional response
(`none` stands for any raised request failure: connection error,
timeout, decode error).  The thread pool of `fetch_lastmod_dates` is
modelled by an explicit completion schedule: `as_completed` yields the
submitted tasks in an arbitrary order, so the schedule is a list that
is a permutation of the submitted URL list, and theorems quantify over
all such schedules.  The regular expressions and `strptime` formats
used by `get_lastmod_from_server` are embedded with their CPython
semantics: `re.search` finds the match at the leftmost starting
position, `.` does not match a newline, non-greedy and greedy
quantifiers backtrack, `strptime` requires the whole string to be
consumed, and the `%Z` directive matches only a timezone name
(`utc` or `gmt` case-insensitively, plus locale names that are
environment dependent and omitted here; none of them contains an
offset suffix such as `+0000`).
-/

/-- The characters matched by `\s` in a CPython regular expression
(ASCII whitespace; the rare further Unicode whitespace characters are
not needed by any claim). -/
def pyIsSpace (c : Char) : Bool :=
  c = ' ' ∨ c = '\t' ∨ c = '\n' ∨ c = '\r' ∨ c = '\x0b' ∨ c = '\x0c'

/-- ASCII decimal digit test. -/
def isDigitChar (c : Char) : Bool :=
  48 ≤ c.toNat ∧ c.toNat ≤ 57

/-- Numeric value of an ASCII digit. -/
def digitVal (c : Char) : Nat := c.toNat - 48

/-- ASCII lower-casing, as used by the case-insensitive regex match of
`_strptime`. -/
def lowerChar (c : Char) : Char :=
  if 'A' ≤ c ∧ c ≤ 'Z' then Char.ofNat (c.toNat + 32) else c

/-!
## The marker regular expression

`re.search(r'<!-- Last Published: (.+?) -->', html_content)`
(line 115 of the source).  The search succeeds at the leftmost
position where the literal prefix is followed by at least one
non-newline character and then the literal close ` -->`; the
non-greedy group captures the shortest such run.
-/

/-- The literal opening of the marker. -/
def markerPre : List Char := "<!-- Last Published: ".toList

/-- The literal close of the marker. -/
def markerClose : List Char := " -->".toList

/-- Non-greedy scan for the closing ` -->`: the capture grows one
non-newline character at a time and stops at the first position where
the close matches.  `acc` holds the capture so far, reversed. -/
def markerTail : List Char → List Char → Option (List Char)
  | _, [] => none
  | acc, rest@(c :: r) =>
    if markerClose.isPrefixOf rest then some acc.reverse
    else if c = '\n' then none
    else markerTail (c :: acc) r

/-- The group `(.+?)` followed by ` -->`: at least one non-newline
character, then the non-greedy scan. -/
def markerContent : List Char → Option (List Char)
  | [] => none
  | c :: r => if c = '\n' then none else markerTail [c] r

/-- `re.search` of the marker pattern: try every starting position left
to right. -/
def searchMarker : List Char → Option (List Char)
  | [] => none
  | s@(_ :: r) =>
    if markerPre.isPrefixOf s then
      match markerContent (s.drop markerPre.length) with
      | some content => some content
      | none => searchMarker r
    else searchMarker r

/-!
## The timezone-suffix strip

`re.sub(r'\s*\(.*?\)\s*$', '', date_str)` (line 122 of the source).
The pattern contains a mandatory parenthesis pair, so at most one
match exists and it extends to the end of the string; substitution
therefore truncates the string at the leftmost position where
whitespace leads to a `(` that is closed by some `)` followed only by
whitespace up to the end (the capture between the parentheses may not
contain a newline).
-/

/-- After an opening `(`: scan for a `)` whose remaining suffix is all
whitespace; the scanned content may not contain a newline. -/
def closeScan : List Char → Bool
  | [] => false
  | c :: rest =>
    if c = ')' ∧ rest.all pyIsSpace then true
    else if c = '\n' then false
    else closeScan rest

/-- Does `\s*\(.*?\)\s*$` match starting exactly at this suffix? -/
def parenMatchAt : List Char → Bool
  | [] => false
  | c :: rest =>
    if c = '(' then closeScan rest
    else if pyIsSpace c then parenMatchAt rest
    else false

/-- The substitution: delete from the leftmost matching position to the
end of the string. -/
def stripParen : List Char → List Char
  | [] => []
  | s@(c :: rest) => if parenMatchAt s then [] else c :: stripParen rest

/-!
## The strptime model

`datetime.strptime` (lines 124 and 132 of the source) compiles the
format into a case-insensitive regular expression, matches it at the
start of the input, rejects the input if unconverted data remains, and
then validates the parsed fields through the datetime constructor.
The directive regexes, taken from the CPython `_strptime` module:

  %a  mon|tue|wed|thu|fri|sat|sun
  %b  jan|feb|mar|apr|may|jun|jul|aug|sep|oct|nov|dec
  %d  3[0-1]|[1-2]\d|0[1-9]|[1-9]| [1-9]
  %Y  \d\d\d\d
  %H  2[0-3]|[0-1]\d|\d
  %M  [0-5]\d|\d
  %S  6[0-1]|[0-5]\d|\d
  %Z  utc|gmt

and every whitespace run of the format matches `\s+`.  Alternatives
are tried in the listed order with full backtracking: a token parser
below returns the list of its possible (value, rest-of-input) splits
in that order, and the format parser takes the first split under
which the remainder of the format also matches.
-/

/-- Try alternatives in order; keep the first under which the
continuation succeeds (regex backtracking). -/
def firstSome {α β : Type} : List α → (α → Option β) → Option β
  | [], _ => none
  | a :: as, f =>
    match f a with
    | some b => some b
    | none => firstSome as f

/-- Consume a literal lowercase pattern case-insensitively. -/
def matchCI : List Char → List Char → Option (List Char)
  | [], s => some s
  | _ :: _, [] => none
  | p :: ps, c :: cs => if lowerChar c = p then matchCI ps cs else none

/-- The abbreviated weekday names of the C locale. -/
def weekdayNames : List (List Char) :=
  ["mon", "tue", "wed", "thu", "fri", "sat", "sun"].map String.toList

/-- `%a`: consume an abbreviated weekday name (its value is ignored by
the source, which rebuilds the date from year, month and day). -/
def weekdayAlt (s : List Char) : Option (List Char) :=
  firstSome weekdayNames (fun p => matchCI p s)

/-- The abbreviated month names of the C locale, in calendar order. -/
def monthNames : List (List Char) :=
  ["jan", "feb", "mar", "apr", "may", "jun",
   "jul", "aug", "sep", "oct", "nov", "dec"].map String.toList

/-- Helper for `%b`: try the month names in order, numbering from
`i`. -/
def monthAltGo : List (List Char) → Nat → List Char → Option (Nat × List Char)
  | [], _, _ => none
  | p :: ps, i, s =>
    match matchCI p s with
    | some r => some (i, r)
    | none => monthAltGo ps (i + 1) s

/-- `%b`: consume an abbreviated month name, yielding 1..12. -/
def monthAlt (s : List Char) : Option (Nat × List Char) :=
  monthAltGo monthNames 1 s

/-- `%Z`: a timezone name, `utc` or `gmt` case-insensitively.  The
locale may contribute further names via `time.tzname`; they are
environment dependent and omitted (none is relevant to the claims). -/
def tzAlt (s : List Char) : Option (List Char) :=
  firstSome ["utc".toList, "gmt".toList] (fun p => matchCI p s)

/-- A literal character of the format. -/
def litChar (c : Char) : List Char → Option (List Char)
  | [] => none
  | x :: r => if x = c then some r else none

/-- `%d`: alternatives of `3[0-1]|[1-2]\d|0[1-9]|[1-9]| [1-9]` in
regex order. -/
def dayAlts : List Char → List (Nat × List Char)
  | [] => []
  | [c1] => if isDigitChar c1 ∧ c1 ≠ '0' then [(digitVal c1, [])] else []
  | c1 :: c2 :: r =>
    (if c1 = '3' ∧ (c2 = '0' ∨ c2 = '1') then [(30 + digitVal c2, r)] else []) ++
    (if (c1 = '1' ∨ c1 = '2') ∧ isDigitChar c2 then
      [(10 * digitVal c1 + digitVal c2, r)] else []) ++
    (if c1 = '0' ∧ isDigitChar c2 ∧ c2 ≠ '0' then [(digitVal c2, r)] else []) ++
    (if isDigitChar c1 ∧ c1 ≠ '0' then [(digitVal c1, c2 :: r)] else []) ++
    (if c1 = ' ' ∧ isDigitChar c2 ∧ c2 ≠ '0' then [(digitVal c2, r)] else [])

/-- `%H`: alternatives of `2[0-3]|[0-1]\d|\d` in regex order. -/
def hourAlts : List Char → List (Nat × List Char)
  | [] => []
  | [c1] => if isDigitChar c1 then [(digitVal c1, [])] else []
  | c1 :: c2 :: r =>
    (if c1 = '2' ∧ (c2 = '0' ∨ c2 = '1' ∨ c2 = '2' ∨ c2 = '3') then
      [(20 + digitVal c2, r)] else []) ++
    (if (c1 = '0' ∨ c1 = '1') ∧ isDigitChar c2 then
      [(10 * digitVal c1 + digitVal c2, r)] else []) ++
    (if isDigitChar c1 then [(digitVal c1, c2 :: r)] else [])

/-- `%M`: alternatives of `[0-5]\d|\d` in regex order. -/
def minuteAlts : List Char → List (Nat × List Char)
  | [] => []
  | [c1] => if isDigitChar c1 then [(digitVal c1, [])] else []
  | c1 :: c2 :: r =>
    (if c1.toNat ≤ 53 ∧ isDigitChar c1 ∧ isDigitChar c2 then
      [(10 * digitVal c1 + digitVal c2, r)] else []) ++
    (if isDigitChar c1 then [(digitVal c1, c2 :: r)] else [])

/-- `%S`: alternatives of `6[0-1]|[0-5]\d|\d` in regex order. -/
def secondAlts : List Char → List (Nat × List Char)
  | [] => []
  | [c1] => if isDigitChar c1 then [(digitVal c1, [])] else []
  | c1 :: c2 :: r =>
    (if c1 = '6' ∧ (c2 = '0' ∨ c2 = '1') then [(60 + digitVal c2, r)] else []) ++
    (if c1.toNat ≤ 53 ∧ isDigitChar c1 ∧ isDigitChar c2 then
      [(10 * digitVal c1 + digitVal c2, r)] else []) ++
    (if isDigitChar c1 then [(digitVal c1, c2 :: r)] else [])

/-- `%Y`: exactly four digits. -/
def year4 : List Char → Option (Nat × List Char)
  | c1 :: c2 :: c3 :: c4 :: r =>
    if isDigitChar c1 ∧ isDigitChar c2 ∧ isDigitChar c3 ∧ isDigitChar c4 then
      some (1000 * digitVal c1 + 100 * digitVal c2 + 10 * digitVal c3 + digitVal c4, r)
    else none
  | _ => none

/-- Length of the maximal whitespace run at the head of the input. -/
def wsRun : List Char → Nat
  | [] => 0
  | c :: r => if pyIsSpace c then wsRun r + 1 else 0

/-- `\s+`: the possible remainders after consuming one or more
whitespace characters, longest consumption first (greedy order). -/
def wsAlts (s : List Char) : List (List Char) :=
  (List.range (wsRun s)).map (fun i => s.drop (wsRun s - i))

/-- The fields parsed by either format, before validation by the
datetime constructor. -/
structure RawFields where
  year : Nat
  month : Nat
  day : Nat
  hour : Nat
  minute : Nat
  second : Nat
  deriving DecidableEq, Repr

/-- The regex of format `%a %b %d %Y %H:%M:%S %Z` matched against the
whole input (the source rejects the input when unconverted data
remains), with backtracking over the alternative splits. -/
def runFmtWebflow (s : List Char) : Option RawFields :=
  (weekdayAlt s).bind fun r1 =>
  firstSome (wsAlts r1) fun r2 =>
  (monthAlt r2).bind fun (mo, r3) =>
  firstSome (wsAlts r3) fun r4 =>
  firstSome (dayAlts r4) fun (d, r5) =>
  firstSome (wsAlts r5) fun r6 =>
  (year4 r6).bind fun (y, r7) =>
  firstSome (wsAlts r7) fun r8 =>
  firstSome (hourAlts r8) fun (h, r9) =>
  (litChar ':' r9).bind fun r10 =>
  firstSome (minuteAlts r10) fun (mi, r11) =>
  (litChar ':' r11).bind fun r12 =>
  firstSome (secondAlts r12) fun (sec, r13) =>
  firstSome (wsAlts r13) fun r14 =>
  (tzAlt r14).bind fun r15 =>
  if r15 = [] then some ⟨y, mo, d, h, mi, sec⟩ else none

/-- The regex of format `%a, %d %b %Y %H:%M:%S %Z` matched against the
whole input. -/
def runFmtHttp (s : List Char) : Option RawFields :=
  (weekdayAlt s).bind fun r0 =>
  (litChar ',' r0).bind fun r1 =>
  firstSome (wsAlts r1) fun r2 =>
  firstSome (dayAlts r2) fun (d, r3) =>
  firstSome (wsAlts r3) fun r4 =>
  (monthAlt r4).bind fun (mo, r5) =>
  firstSome (wsAlts r5) fun r6 =>
  (year4 r6).bind fun (y, r7) =>
  firstSome (wsAlts r7) fun r8 =>
  firstSome (hourAlts r8) fun (h, r9) =>
  (litChar ':' r9).bind fun r10 =>
  firstSome (minuteAlts r10) fun (mi, r11) =>
  (litChar ':' r11).bind fun r12 =>
  firstSome (secondAlts r12) fun (sec, r13) =>
  firstSome (wsAlts r13) fun r14 =>
  (tzAlt r14).bind fun r15 =>
  if r15 = [] then some ⟨y, mo, d, h, mi, sec⟩ else none

/-- A validated datetime, as produced by the datetime constructor. -/
structure PyDatetime where
  year : Nat
  month : Nat
  day : Nat
  hour : Nat
  minute : Nat
  second : Nat
  deriving DecidableEq, Repr

/-- The Gregorian leap-year rule used by the datetime module. -/
def isLeap (y : Nat) : Bool :=
  y % 4 = 0 ∧ (y % 100 ≠ 0 ∨ y % 400 = 0)

/-- Days in a month, as validated by the datetime constructor. -/
def daysInMonth (y m : Nat) : Nat :=
  if m = 2 then (if isLeap y then 29 else 28)
  else if m = 4 ∨ m = 6 ∨ m = 9 ∨ m = 11 then 30
  else 31

/-- The datetime constructor: field validation (year 1..9999, month
1..12, day 1..days in month, hour 0..23, minute 0..59, second 0..59);
out-of-range fields raise, which the source catches as a parse
failure. -/
def mkDatetime (f : RawFields) : Option PyDatetime :=
  if 1 ≤ f.year ∧ f.year ≤ 9999 ∧ 1 ≤ f.month ∧ f.month ≤ 12 ∧
     1 ≤ f.day ∧ f.day ≤ daysInMonth f.year f.month ∧
     f.hour ≤ 23 ∧ f.minute ≤ 59 ∧ f.second ≤ 59 then
    some ⟨f.year, f.month, f.day, f.hour, f.minute, f.second⟩
  else none

/-- `datetime.strptime(s, "%a %b %d %Y %H:%M:%S %Z")`: regex match of
the whole input, then constructor validation. -/
def strptimeWebflow (s : List Char) : Option PyDatetime :=
  (runFmtWebflow s).bind mkDatetime

/-- `datetime.strptime(s, "%a, %d %b %Y %H:%M:%S %Z")`. -/
def strptimeHttp (s : List Char) : Option PyDatetime :=
  (runFmtHttp s).bind mkDatetime

/-- Zero-padding to two characters, as `%m` and `%d` of strftime
produce. -/
def pad2 (n : Nat) : String :=
  if n < 10 then "0" ++ toString n else toString n

/-- `dt.strftime("%Y-%m-%d")`.  On the platforms this tool targets,
`%Y` prints the year without padding (all years reachable from the
parsers of the source have four digits anyway) and `%m`, `%d` print
two zero-padded digits. -/
def strftimeYMD (dt : PyDatetime) : String :=
  toString dt.year ++ "-" ++ pad2 dt.month ++ "-" ++ pad2 dt.day

/-!
## The per-URL fetcher
-/

/-- An HTTP response as the fetcher observes it: the decoded text body
and the response headers. -/
structure HttpResponse where
  body : String
  headers : List (String × String)

/-- The network: every URL either yields a response or raises
(`none` stands for any request failure: connection error, timeout,
malformed or undecodable response). -/
def Net : Type := String → Option HttpResponse

/-- Header lookup; the headers object of the requests library is a
case-insensitive dictionary. -/
def headersGet (hs : List (String × String)) (k : String) : Option String :=
  (hs.find? (fun p => p.1.toList.map lowerChar = k.toList.map lowerChar)).map (fun p => p.2)

/-- Methods 2 and 3 of `get_lastmod_from_server` (lines 129-140):
parse the Last-Modified header if present, else fall back to the run
date.  A header parse failure raises inside the try block and the
outer handler returns the run date as well. -/
def lastModHeaderOrToday (resp : HttpResponse) (today : String) : String :=
  match headersGet resp.headers "Last-Modified" with
  | some lm =>
    match strptimeHttp lm.toList with
    | some dt => strftimeYMD dt
    | none => today
  | none => today

/-- `get_lastmod_from_server` (lines 100-140): fetch the URL, scan the
first 1000 characters of the body for the Last Published marker, parse
its capture with the timezone suffix stripped; on a miss or a parse
failure try the Last-Modified header; on any raised failure or as a
last resort return the run date. -/
def get_lastmod_from_server (net : Net) (today : String) (url : String) : String :=
  match net url with
  | none => today
  | some resp =>
    match searchMarker (resp.body.toList.take 1000) with
    | some dateStr =>
      match strptimeWebflow (stripParen dateStr) with
      | some dt => strftimeYMD dt
      | none => lastModHeaderOrToday resp today
    | none => lastModHeaderOrToday resp today

/-!
## The resolver
-/

/-- Assignment into a Python dict: overwrite in place if the key is
present, else append. -/
def dictInsert (d : List (String × String)) (k v : String) : List (String × String) :=
  if d.any (fun p => p.1 = k) then
    d.map (fun p => if p.1 = k then (k, v) else p)
  else d ++ [(k, v)]

/-- The keys of a dict, in insertion order. -/
def dictKeys (d : List (String × String)) : List String := d.map (fun p => p.1)

/-- `d.get(k)` / `d[k]` lookup. -/
def dictLookup (d : List (String × String)) (k : String) : Option String :=
  (d.find? (fun p => p.1 = k)).map (fun p => p.2)

/-- The completion loop body (lines 160-170): a completed task either
delivered a date or raised, in which case the URL gets the run date. -/
def taskValue (today : String) : Option String → String
  | some v => v
  | none => today

/-- The completion loop of `fetch_lastmod_dates` (lines 158-170): fold
the completed tasks, in completion order, into the result dict. -/
def processCompletions (today : String) (completions : List (String × Option String)) :
    List (String × String) :=
  completions.foldl (fun d c => dictInsert d c.1 (taskValue today c.2)) []

/-- `fetch_lastmod_dates` (lines 142-173).  When fetching is disabled
the dict comprehension maps every URL to the run date without touching
the network.  Otherwise one task per URL is submitted and the results
are collected in completion order; `as_completed` yields the tasks in
an arbitrary order, modelled by the `order` schedule (a permutation of
`urls` in every theorem).  The fetcher itself never raises, so each
completion carries its fetched value. -/
def fetch_lastmod_dates (fetchLastmod : Bool) (net : Net) (today : String)
    (urls : List String) (order : List String) : List (String × String) :=
  if fetchLastmod = false then
    urls.foldl (fun d u => dictInsert d u today) []
  else
    processCompletions today
      (order.map (fun u => (u, some (get_lastmod_from_server net today u))))

/-!
## The categorizer
-/

/-- Split a list at the first occurrence of a literal pattern,
returning the part before and the part after the pattern. -/
def splitAtSub (pat : List Char) : List Char → Option (List Char × List Char)
  | [] => if pat = [] then some ([], []) else none
  | s@(c :: r) =>
    if pat.isPrefixOf s then some ([], s.drop pat.length)
    else (splitAtSub pat r).map (fun p => (c :: p.1, p.2))

/-- Substring containment, the `in` operator on strings. -/
def substrContains (pat s : List Char) : Bool :=
  (splitAtSub pat s).isSome

/-- The network location and path of a parsed URL. -/
structure UrlParts where
  netloc : String
  path : String

/-- `urllib.parse.urlparse`, modelled on its behaviour for the URLs
this tool handles: an absolute URL `scheme://netloc/path` whose
netloc ends at the first `/`, `?` or `#` and whose path ends at the
first `?` or `#`; a string without `://` has an empty netloc and its
path runs to the first `?` or `#`. -/
def urlparse (url : String) : UrlParts :=
  match splitAtSub "://".toList url.toList with
  | some (_, rest) =>
    let netloc := rest.takeWhile (fun c => c ≠ '/' ∧ c ≠ '?' ∧ c ≠ '#')
    let tail := rest.drop netloc.length
    ⟨String.mk netloc, String.mk (tail.takeWhile (fun c => c ≠ '?' ∧ c ≠ '#'))⟩
  | none => ⟨"", String.mk (url.toList.takeWhile (fun c => c ≠ '?' ∧ c ≠ '#'))⟩

/-- `path.startswith(p)`. -/
def startsWithStr (s p : String) : Bool :=
  p.toList.isPrefixOf s.toList

/-- The blog prefixes of the constructor (lines 40-54). -/
def blog_prefixes : List String :=
  ["/whatsapp-chatbots", "/whatsapp-automation", "/whatsapp-marketing",
   "/click-to-whatsapp-ads", "/whatsapp-api", "/whatsapp-bulk-messaging",
   "/whatsapp-retargetings", "/whatsapp-drip-campaigns", "/whatsapp-catalog",
   "/whatsapp-integrations", "/others", "/blog", "/blogs"]

/-- The paths forced into the pages category (lines 57-63). -/
def force_pages_urls : List String :=
  ["/whatsapp-automation-tool", "/whatsapp-marketing-software-2",
   "/whatsapp-marketing-software", "/whatsapp-marketing-automation",
   "/whatsapp-automation-for-business"]

/-- `categorize_url` (lines 175-207). -/
def categorize_url (url : String) : String :=
  let parsed := urlparse url
  let path := parsed.path
  if substrContains "app.quickreply.ai".toList parsed.netloc.toList then "server"
  else if startsWithStr path "/case-studies" ∨ startsWithStr path "/case-study" then
    "case-studies"
  else if startsWithStr path "/integrations" then "integrations"
  else if substrContains "/whatsapp-template".toList path.toList then "wa-templates"
  else if force_pages_urls.any (fun f => path = f) then "pages"
  else if blog_prefixes.any (fun p => startsWithStr path p) then "blog"
  else "pages"

/-- The category lists held in the `categories` attribute; the dict
has exactly the six keys the categorizer can return, each holding the
(URL, lastmod) pairs appended so far. -/
def Categories : Type := String → List (String × String)

/-- The six empty lists of the constructor (lines 65-72). -/
def emptyCategories : Categories := fun _ => []

/-- `self.categories[category].append(entry)`. -/
def addToCategory (cats : Categories) (cat : String) (entry : String × String) :
    Categories :=
  fun c => if c = cat then cats c ++ [entry] else cats c

/-- `organize_urls` (lines 209-216): each URL is appended to its
category paired with its resolved date, a missing dict entry
defaulting to the run date via `lastmod_dates.get(url, self.today)`. -/
def organize_urls (urls : List String) (lastmod_dates : List (String × String))
    (today : String) : Categories :=
  urls.foldl
    (fun cats url =>
      addToCategory cats (categorize_url url)
        (url, (dictLookup lastmod_dates url).getD today))
    emptyCategories

/-!
## Concrete instances used by witnesses and counterexamples
-/

/-- A response carrying both a parseable marker and a parseable
Last-Modified header. -/
def c3resp : HttpResponse :=
  ⟨"<!-- Last Published: Wed Jan 28 2026 10:30:29 GMT -->",
   [("Last-Modified", "Fri, 02 Jan 2026 00:00:00 GMT")]⟩

/-- A network serving `c3resp` for every URL. -/
def c3net : Net := fun _ => some c3resp

/-- The two-URL network of the worked example of the specification:
the first page carries the documented Webflow marker, the second has
no marker but a Last-Modified header. -/
def exampleNet : Net := fun url =>
  if url = "https://a/x" then
    some ⟨"<!-- Last Published: Wed Jan 28 2026 10:30:29 GMT+0000 (Coordinated Universal Time) -->",
          []⟩
  else if url = "https://a/y" then
    some ⟨"no marker here", [("Last-Modified", "Fri, 02 Jan 2026 00:00:00 GMT")]⟩
  else none

/-- A response whose marker text suffers a date-parse failure (the
offset `+0000` survives `%Z`) while a valid Last-Modified header is
present. -/
def c6resp : HttpResponse :=
  ⟨"<!-- Last Published: Wed Jan 28 2026 10:30:29 GMT+0000 (Coordinated Universal Time) -->",
   [("Last-Modified", "Fri, 02 Jan 2026 00:00:00 GMT")]⟩

/-- A network serving `c6resp` for every URL. -/
def c6net : Net := fun _ => some c6resp

/-- A body whose marker begins only after the first 1000 characters. -/
def c8resp : HttpResponse :=
  ⟨String.mk (List.replicate 1000 'a') ++ "<!-- Last Published: Wed Jan 28 2026 10:30:29 GMT -->",
   [("Last-Modified", "Fri, 02 Jan 2026 00:00:00 GMT")]⟩

/-- The same response truncated to its first 1000 characters. -/
def c8respB : HttpResponse :=
  ⟨String.mk (List.replicate 1000 'a'),
   [("Last-Modified", "Fri, 02 Jan 2026 00:00:00 GMT")]⟩

/-!
## Dictionary lemmas
-/

theorem any_fst_iff (d : List (String × String)) (k : String) :
    d.any (fun p => p.1 = k) = true ↔ k ∈ dictKeys d := by
  rw [List.any_eq_true]
  simp only [decide_eq_true_eq, dictKeys, List.mem_map]

theorem dictKeys_map_update (d : List (String × String)) (k v : String) :
    dictKeys (d.map (fun p => if p.1 = k then (k, v) else p)) = dictKeys d := by
  simp only [dictKeys, List.map_map]
  apply List.map_congr_left
  intro p _
  by_cases hp : p.1 = k
  · simp [Function.comp, hp]
  · simp [Function.comp, hp]

theorem mem_dictKeys_insert (d : List (String × String)) (k v u : String) :
    u ∈ dictKeys (dictInsert d k v) ↔ u = k ∨ u ∈ dictKeys d := by
  by_cases h : d.any (fun p => p.1 = k) = true
  · rw [dictInsert, if_pos h, dictKeys_map_update]
    have hk : k ∈ dictKeys d := (any_fst_iff d k).mp h
    constructor
    · exact Or.inr
    · rintro (rfl | hu)
      · exact hk
      · exact hu
  · rw [dictInsert, if_neg h]
    simp [dictKeys, or_comm]

theorem nodup_dictKeys_insert (d : List (String × String)) (k v : String)
    (h : (dictKeys d).Nodup) : (dictKeys (dictInsert d k v)).Nodup := by
  by_cases hany : d.any (fun p => p.1 = k) = true
  · rwa [dictInsert, if_pos hany, dictKeys_map_update]
  · rw [dictInsert, if_neg hany]
    have hk : k ∉ dictKeys d := fun hkk => hany ((any_fst_iff d k).mpr hkk)
    simp only [dictKeys, List.map_append, List.map_cons, List.map_nil]
    rw [List.nodup_append]
    refine ⟨h, List.nodup_singleton k, ?_⟩
    intro a ha hb
    simp only [List.mem_singleton] at hb
    exact hk (hb ▸ ha)

theorem dictLookup_nil (u : String) : dictLookup [] u = none := rfl

theorem dictLookup_cons (p : String × String) (d : List (String × String)) (u : String) :
    dictLookup (p :: d) u = if p.1 = u then some p.2 else dictLookup d u := by
  by_cases h : p.1 = u
  · simp [dictLookup, List.find?, h]
  · simp [dictLookup, List.find?, h]

theorem dictLookup_map_update_ne (d : List (String × String)) (k v u : String)
    (hu : u ≠ k) :
    dictLookup (d.map (fun p => if p.1 = k then (k, v) else p)) u = dictLookup d u := by
  induction d with
  | nil => rfl
  | cons q d ih =>
    by_cases hq : q.1 = k
    · have h1 : ¬ ((k, v).1 = u) := fun h => hu h.symm
      have h2 : ¬ (q.1 = u) := by rw [hq]; exact fun h => hu h.symm
      simp only [List.map_cons, if_pos hq, dictLookup_cons, if_neg h1, if_neg h2]
      exact ih
    · simp only [List.map_cons, if_neg hq, dictLookup_cons]
      by_cases hqu : q.1 = u
      · simp [hqu]
      · simp [hqu, ih]

theorem dictLookup_map_update (d : List (String × String)) (k v u : String)
    (hany : d.any (fun p => p.1 = k) = true) :
    dictLookup (d.map (fun p => if p.1 = k then (k, v) else p)) u =
      if u = k then some v else dictLookup d u := by
  by_cases hu : u = k
  · subst hu
    induction d with
    | nil => simp at hany
    | cons q d ih =>
      simp only [List.any_cons, Bool.or_eq_true, decide_eq_true_eq] at hany
      by_cases hq : q.1 = u
      · simp [List.map_cons, if_pos hq, dictLookup_cons]
      · have hd : d.any (fun p => p.1 = u) = true := by
          rcases hany with h | h
          · exact absurd h hq
          · exact h
        simp only [List.map_cons, if_neg hq, dictLookup_cons, if_neg hq, if_pos rfl]
        simpa using ih hd
  · rw [if_neg hu]
    exact dictLookup_map_update_ne d k v u hu

theorem dictLookup_append_single (d : List (String × String)) (k v u : String)
    (hk : ∀ p ∈ d, p.1 ≠ k) :
    dictLookup (d ++ [(k, v)]) u = if u = k then some v else dictLookup d u := by
  induction d with
  | nil =>
    simp only [List.nil_append, dictLookup_cons, dictLookup_nil]
    by_cases h : u = k
    · simp [h]
    · rw [if_neg (fun hh => h hh.symm), if_neg h]
  | cons q d ih =>
    have hq : q.1 ≠ k := hk q (by simp)
    have hd : ∀ p ∈ d, p.1 ≠ k := fun p hp => hk p (by simp [hp])
    simp only [List.cons_append, dictLookup_cons, ih hd]
    by_cases hqu : q.1 = u
    · have hiff : ¬ (u = k) := fun h => hq (hqu.trans h)
      simp [hqu, hiff]
    · simp [hqu]

theorem dictLookup_insert (d : List (String × String)) (k v u : String) :
    dictLookup (dictInsert d k v) u = if u = k then some v else dictLookup d u := by
  by_cases hany : d.any (fun p => p.1 = k) = true
  · rw [dictInsert, if_pos hany]
    exact dictLookup_map_update d k v u hany
  · rw [dictInsert, if_neg hany]
    apply dictLookup_append_single
    intro p hp hpk
    exact hany (List.any_eq_true.mpr ⟨p, hp, by simp [hpk]⟩)

theorem foldl_dictInsert_keys_mem {α : Type} (key : α → String) (val : α → String) :
    ∀ (l : List α) (d0 : List (String × String)) (u : String),
      u ∈ dictKeys (l.foldl (fun d x => dictInsert d (key x) (val x)) d0) ↔
        u ∈ l.map key ∨ u ∈ dictKeys d0
  | [], d0, u => by simp
  | x :: l, d0, u => by
    rw [List.foldl_cons, foldl_dictInsert_keys_mem key val l _ u]
    simp only [List.map_cons, List.mem_cons, mem_dictKeys_insert]
    tauto

theorem foldl_dictInsert_keys_nodup {α : Type} (key : α → String) (val : α → String) :
    ∀ (l : List α) (d0 : List (String × String)), (dictKeys d0).Nodup →
      (dictKeys (l.foldl (fun d x => dictInsert d (key x) (val x)) d0)).Nodup
  | [], _, h => h
  | x :: l, d0, h => by
    rw [List.foldl_cons]
    exact foldl_dictInsert_keys_nodup key val l _ (nodup_dictKeys_insert _ _ _ h)

theorem foldl_dictInsert_lookup {α : Type} (key : α → String) (val : α → String) :
    ∀ (l : List α) (d0 : List (String × String)) (u : String),
      dictLookup (l.foldl (fun d x => dictInsert d (key x) (val x)) d0) u =
        match (l.filter (fun x => key x = u)).getLast? with
        | some x => some (val x)
        | none => dictLookup d0 u
  | [], d0, u => by simp
  | x :: l, d0, u => by
    rw [List.foldl_cons, foldl_dictInsert_lookup key val l _ u]
    by_cases hx : key x = u
    · have hfc : (x :: l).filter (fun z => key z = u) = x :: l.filter (fun z => key z = u) :=
        List.filter_cons_of_pos (by simp [hx])
      rcases hfl : l.filter (fun z => key z = u) with _ | ⟨y, ys⟩
      · rw [hfc, hfl]
        simp [dictLookup_insert, hx]
      · rw [hfc, hfl, List.getLast?_cons_cons]
        rcases hg : (y :: ys).getLast? with _ | z
        · exact absurd (List.getLast?_eq_none_iff.mp hg) (by simp)
        · simp
    · have hfc : (x :: l).filter (fun z => key z = u) = l.filter (fun z => key z = u) :=
        List.filter_cons_of_neg (by simp [hx])
      rw [hfc]
      rcases hg : (l.filter (fun z => key z = u)).getLast? with _ | z
      · show dictLookup (dictInsert d0 (key x) (val x)) u = dictLookup d0 u
        rw [dictLookup_insert, if_neg (fun h : u = key x => hx h.symm)]
      · rfl

/-!
## Resolver lemmas
-/

theorem fetch_keys_mem (b : Bool) (net : Net) (today : String)
    (urls order : List String) (hperm : order.Perm urls) (u : String) :
    u ∈ dictKeys (fetch_lastmod_dates b net today urls order) ↔ u ∈ urls := by
  cases b with
  | false =>
    have h := foldl_dictInsert_keys_mem (fun x : String => x) (fun _ => today) urls [] u
    simpa [dictKeys] using h
  | true =>
    have h := foldl_dictInsert_keys_mem Prod.fst
      (fun c : String × Option String => taskValue today c.2)
      (order.map (fun u => (u, some (get_lastmod_from_server net today u)))) [] u
    simp only [List.map_map, Function.comp, dictKeys, List.map_nil,
      List.not_mem_nil, or_false] at h
    rw [show ((fun c : String × Option String => c.1) ∘
        fun u => (u, some (get_lastmod_from_server net today u))) = fun u => u from rfl] at h
    rw [List.map_id'] at h
    exact h.trans hperm.mem_iff

theorem fetch_keys_nodup (b : Bool) (net : Net) (today : String)
    (urls order : List String) :
    (dictKeys (fetch_lastmod_dates b net today urls order)).Nodup := by
  cases b with
  | false =>
    exact foldl_dictInsert_keys_nodup (fun x : String => x) (fun _ => today) urls []
      List.nodup_nil
  | true =>
    exact foldl_dictInsert_keys_nodup Prod.fst
      (fun c : String × Option String => taskValue today c.2)
      (order.map (fun u => (u, some (get_lastmod_from_server net today u)))) []
      List.nodup_nil

theorem filter_fst_single (l : List (String × Option String)) (u : String)
    (x : Option String) (hmem : (u, x) ∈ l)
    (hcount : (l.map Prod.fst).count u = 1) :
    l.filter (fun c => c.1 = u) = [(u, x)] := by
  induction l with
  | nil => simp at hmem
  | cons c l ih =>
    simp only [List.map_cons, List.count_cons] at hcount
    by_cases hc : c.1 = u
    · have h0 : (l.map Prod.fst).count u = 0 := by
        simp only [hc, beq_self_eq_true, if_true] at hcount
        omega
      have hnot : u ∉ l.map Prod.fst := List.count_eq_zero.mp h0
      have hcx : c = (u, x) := by
        rcases List.mem_cons.mp hmem with h | h
        · exact h.symm
        · exact absurd (List.mem_map.mpr ⟨(u, x), h, rfl⟩) hnot
      have hemp : l.filter (fun c => c.1 = u) = [] := by
        apply List.filter_eq_nil_iff.mpr
        intro a ha hau
        exact hnot (List.mem_map.mpr ⟨a, ha, by simpa using hau⟩)
      rw [List.filter_cons_of_pos (by simp [hc]), hcx, hemp]
    · have hmem' : (u, x) ∈ l := by
        rcases List.mem_cons.mp hmem with h | h
        · exact absurd (by rw [← h]) hc
        · exact h
      have hcount' : (l.map Prod.fst).count u = 1 := by
        simp only [beq_iff_eq, if_neg hc] at hcount
        omega
      rw [List.filter_cons_of_neg (by simp [hc])]
      exact ih hmem' hcount'

theorem lastModHeaderOrToday_congr (resp respB : HttpResponse) (today : String)
    (h : resp.headers = respB.headers) :
    lastModHeaderOrToday resp today = lastModHeaderOrToday respB today := by
  simp only [lastModHeaderOrToday, h]

theorem organize_mem_mono (lastmod_dates : List (String × String)) (today : String) :
    ∀ (l : List String) (cats : Categories) (c : String) (e : String × String),
      e ∈ cats c →
      e ∈ (l.foldl (fun cats url => addToCategory cats (categorize_url url)
        (url, (dictLookup lastmod_dates url).getD today)) cats) c
  | [], _, _, _, h => h
  | u :: l, cats, c, e, h => by
    rw [List.foldl_cons]
    apply organize_mem_mono lastmod_dates today l _ c e
    unfold addToCategory
    by_cases hc : c = categorize_url u
    · rw [if_pos hc]
      exact List.mem_append_left _ h
    · rw [if_neg hc]
      exact h

theorem organize_defaults_aux (lastmod_dates : List (String × String)) (today : String) :
    ∀ (l : List String) (cats : Categories) (url : String), url ∈ l →
      (url, (dictLookup lastmod_dates url).getD today) ∈
        (l.foldl (fun cats u => addToCategory cats (categorize_url u)
          (u, (dictLookup lastmod_dates u).getD today)) cats) (categorize_url url)
  | [], _, _, h => absurd h (List.not_mem_nil _)
  | u :: l, cats, url, h => by
    rw [List.foldl_cons]
    rcases List.mem_cons.mp h with rfl | hl
    · apply organize_mem_mono
      unfold addToCategory
      rw [if_pos rfl]
      exact List.mem_append_right _ (by simp)
    · exact organize_defaults_aux lastmod_dates today l _ url hl

/-!
## Claim theorems
-/

/-- Claim C1: for every finite input URL sequence (empty and duplicate
inputs included) and every completion schedule, `fetch_lastmod_dates`
returns a mapping whose key set equals the set of distinct input URLs,
with exactly one entry (and hence one date) per key. -/
theorem resolveAll_totality (b : Bool) (net : Net) (today : String)
    (urls order : List String) (hperm : order.Perm urls) :
    (∀ u, u ∈ dictKeys (fetch_lastmod_dates b net today urls order) ↔ u ∈ urls) ∧
    (dictKeys (fetch_lastmod_dates b net today urls order)).Nodup :=
  ⟨fun u => fetch_keys_mem b net today urls order hperm u,
   fetch_keys_nodup b net today urls order⟩

/-- Witness for C1 at a concrete three-element input with a duplicate
URL and a non-trivial completion order. -/
theorem resolveAll_totality_witness :
    ("https://a/x" ∈ dictKeys (fetch_lastmod_dates true (fun _ => none) "2026-01-01"
        ["https://a/x", "https://a/y", "https://a/x"]
        ["https://a/y", "https://a/x", "https://a/x"]) ↔
      "https://a/x" ∈ ["https://a/x", "https://a/y", "https://a/x"]) ∧
    (dictKeys (fetch_lastmod_dates true (fun _ => none) "2026-01-01"
        ["https://a/x", "https://a/y", "https://a/x"]
        ["https://a/y", "https://a/x", "https://a/x"])).Nodup :=
  ⟨(resolveAll_totality true (fun _ => none) "2026-01-01"
      ["https://a/x", "https://a/y", "https://a/x"]
      ["https://a/y", "https://a/x", "https://a/x"] (by decide)).1 "https://a/x",
   (resolveAll_totality true (fun _ => none) "2026-01-01"
      ["https://a/x", "https://a/y", "https://a/x"]
      ["https://a/y", "https://a/x", "https://a/x"] (by decide)).2⟩

/-- Claim C2 as stated is false: a Python dict holds one entry per
distinct key, so an input with a duplicate URL yields fewer entries
than the input length — here 1 entry for a 2-element input. -/
theorem resolveAll_size_counterexample :
    ¬ ((fetch_lastmod_dates true (fun _ => none) "2026-01-01"
        ["https://a/x", "https://a/x"] ["https://a/x", "https://a/x"]).length =
      (["https://a/x", "https://a/x"] : List String).length) := by
  decide

/-- Claim C2, amended: the number of entries in the output mapping
equals the number of distinct URLs in the input sequence. -/
theorem resolveAll_size (b : Bool) (net : Net) (today : String)
    (urls order : List String) (hperm : order.Perm urls) :
    (fetch_lastmod_dates b net today urls order).length = urls.dedup.length := by
  have h1 := fetch_keys_nodup b net today urls order
  have h2 := fun u => fetch_keys_mem b net today urls order hperm u
  calc (fetch_lastmod_dates b net today urls order).length
      = (dictKeys (fetch_lastmod_dates b net today urls order)).length := by
        simp [dictKeys]
    _ = (dictKeys (fetch_lastmod_dates b net today urls order)).toFinset.card :=
        (List.toFinset_card_of_nodup h1).symm
    _ = urls.dedup.toFinset.card := by
        congr 1
        ext u
        simp only [List.mem_toFinset, h2 u, List.mem_dedup]
    _ = urls.dedup.length := List.toFinset_card_of_nodup (List.nodup_dedup urls)

/-- Witness for the amended C2 at the duplicate-URL input. -/
theorem resolveAll_size_witness :
    (fetch_lastmod_dates true (fun _ => none) "2026-01-01"
        ["https://a/x", "https://a/x"] ["https://a/x", "https://a/x"]).length =
      (["https://a/x", "https://a/x"] : List String).dedup.length :=
  resolveAll_size true (fun _ => none) "2026-01-01"
    ["https://a/x", "https://a/x"] ["https://a/x", "https://a/x"] (by decide)

/-- Claim C5: with fetching disabled the resolver consults neither the
network nor the completion schedule, every input URL is mapped to the
fixed run date, and the key set is exactly the input set. -/
theorem disabled_fast_path (net netB : Net) (today : String)
    (urls order orderB : List String) :
    fetch_lastmod_dates false net today urls order =
      fetch_lastmod_dates false netB today urls orderB ∧
    (∀ u, u ∈ urls →
      dictLookup (fetch_lastmod_dates false net today urls order) u = some today) ∧
    (∀ u, u ∈ dictKeys (fetch_lastmod_dates false net today urls order) ↔ u ∈ urls) := by
  refine ⟨rfl, ?_, fun u => fetch_keys_mem false net today urls urls (List.Perm.refl _) u⟩
  intro u hu
  have h := foldl_dictInsert_lookup (fun x : String => x) (fun _ => today) urls [] u
  refine h.trans ?_
  rcases hg : (urls.filter (fun x => x = u)).getLast? with _ | x
  · exfalso
    have hemp : urls.filter (fun x => x = u) = [] := List.getLast?_eq_none_iff.mp hg
    have : u ∈ urls.filter (fun x => x = u) := List.mem_filter.mpr ⟨hu, by simp⟩
    rw [hemp] at this
    simp at this
  · rfl

/-- Witness for C5 at a concrete single-URL input. -/
theorem disabled_fast_path_witness :
    dictLookup (fetch_lastmod_dates false (fun _ => none) "2026-01-01"
      ["https://a/x"] ["https://a/x"]) "https://a/x" = some "2026-01-01" :=
  (disabled_fast_path (fun _ => none) (fun _ => none) "2026-01-01"
      ["https://a/x"] ["https://a/x"] ["https://a/x"]).2.1 "https://a/x" (by decide)

/-- Claim C6 as stated fails on the date-parse-failure class it names:
here the body prefix yields a marker capture that fails to parse (a
date-parse failure), yet the fetcher returns the header-derived date
2026-01-02 rather than the run date 2026-09-09. -/
theorem fetcher_absorbs_failure_counterexample :
    strptimeWebflow (stripParen
      "Wed Jan 28 2026 10:30:29 GMT+0000 (Coordinated Universal Time)".toList) = none ∧
    searchMarker (c6resp.body.toList.take 1000) =
      some "Wed Jan 28 2026 10:30:29 GMT+0000 (Coordinated Universal Time)".toList ∧
    get_lastmod_from_server c6net "2026-09-09" "https://a/x" = "2026-01-02" ∧
    get_lastmod_from_server c6net "2026-09-09" "https://a/x" ≠ "2026-09-09" :=
  ⟨by decide, by decide, by decide, by decide⟩

/-- Claim C6, amended: the per-URL fetcher never raises to its caller
(it is total in this embedding); a request-level failure (connection
error, timeout, malformed or undecodable response) yields the fixed
run date, while a date-parse failure is absorbed by falling through to
the next strategy, and the run date is returned when the remaining
strategies also fail (no Last-Modified header, or a header that fails
to parse). -/
theorem fetcher_absorbs_failure_amended (net : Net) (today url : String) :
    (net url = none → get_lastmod_from_server net today url = today) ∧
    (∀ resp t, net url = some resp →
      searchMarker (resp.body.toList.take 1000) = some t →
      strptimeWebflow (stripParen t) = none →
      get_lastmod_from_server net today url = lastModHeaderOrToday resp today) ∧
    (∀ resp : HttpResponse, headersGet resp.headers "Last-Modified" = none →
      lastModHeaderOrToday resp today = today) ∧
    (∀ (resp : HttpResponse) (lm : String),
      headersGet resp.headers "Last-Modified" = some lm →
      strptimeHttp lm.toList = none →
      lastModHeaderOrToday resp today = today) := by
  refine ⟨?_, ?_, ?_, ?_⟩
  · intro h
    simp [get_lastmod_from_server, h]
  · intro resp t hnet hmark hdt
    unfold get_lastmod_from_server
    rw [hnet]
    show (match searchMarker (resp.body.toList.take 1000) with
      | some dateStr =>
        match strptimeWebflow (stripParen dateStr) with
        | some dt => strftimeYMD dt
        | none => lastModHeaderOrToday resp today
      | none => lastModHeaderOrToday resp today) = lastModHeaderOrToday resp today
    rw [hmark]
    show (match strptimeWebflow (stripParen t) with
      | some dt => strftimeYMD dt
      | none => lastModHeaderOrToday resp today) = lastModHeaderOrToday resp today
    rw [hdt]
  · intro resp hget
    unfold lastModHeaderOrToday
    rw [hget]
  · intro resp lm hget hparse
    unfold lastModHeaderOrToday
    rw [hget]
    show (match strptimeHttp lm.toList with
      | some dt => strftimeYMD dt
      | none => today) = today
    rw [hparse]

/-- Witness for the amended C6: an always-failing network yields the
run date, and a date-parse failure on `c6net` falls through to the
header strategy. -/
theorem fetcher_absorbs_failure_amended_witness :
    get_lastmod_from_server (fun _ => none) "2026-09-09" "https://a/y" = "2026-09-09" ∧
    get_lastmod_from_server c6net "2026-09-09" "https://a/x" =
      lastModHeaderOrToday c6resp "2026-09-09" :=
  ⟨(fetcher_absorbs_failure_amended (fun _ => none) "2026-09-09" "https://a/y").1 rfl,
   (fetcher_absorbs_failure_amended c6net "2026-09-09" "https://a/x").2.1 c6resp
     "Wed Jan 28 2026 10:30:29 GMT+0000 (Coordinated Universal Time)".toList rfl
     (by decide) (by decide)⟩

/-- Claim C3: when the fetched body prefix contains the marker, the
extraction result is decided by the marker strategy whenever its
capture parses — regardless of any Last-Modified header — and a parse
failure of the capture falls through to the header strategy instead of
aborting. -/
theorem strategy_priority (net : Net) (today url : String) (resp : HttpResponse)
    (hnet : net url = some resp) (t : List Char)
    (hmark : searchMarker (resp.body.toList.take 1000) = some t) :
    (∀ dt, strptimeWebflow (stripParen t) = some dt →
      get_lastmod_from_server net today url = strftimeYMD dt) ∧
    (strptimeWebflow (stripParen t) = none →
      get_lastmod_from_server net today url = lastModHeaderOrToday resp today) := by
  constructor
  · intro dt hdt
    unfold get_lastmod_from_server
    rw [hnet]
    show (match searchMarker (resp.body.toList.take 1000) with
      | some dateStr =>
        match strptimeWebflow (stripParen dateStr) with
        | some dt => strftimeYMD dt
        | none => lastModHeaderOrToday resp today
      | none => lastModHeaderOrToday resp today) = strftimeYMD dt
    rw [hmark]
    show (match strptimeWebflow (stripParen t) with
      | some dt => strftimeYMD dt
      | none => lastModHeaderOrToday resp today) = strftimeYMD dt
    rw [hdt]
  · intro hdt
    unfold get_lastmod_from_server
    rw [hnet]
    show (match searchMarker (resp.body.toList.take 1000) with
      | some dateStr =>
        match strptimeWebflow (stripParen dateStr) with
        | some dt => strftimeYMD dt
        | none => lastModHeaderOrToday resp today
      | none => lastModHeaderOrToday resp today) = lastModHeaderOrToday resp today
    rw [hmark]
    show (match strptimeWebflow (stripParen t) with
      | some dt => strftimeYMD dt
      | none => lastModHeaderOrToday resp today) = lastModHeaderOrToday resp today
    rw [hdt]

/-- Witness for C3: a response carrying both a parseable marker
(Jan 28) and a parseable header (Jan 2) resolves to the marker's
date. -/
theorem strategy_priority_witness :
    get_lastmod_from_server c3net "2026-09-09" "https://a/x" = "2026-01-28" :=
  (strategy_priority c3net "2026-09-09" "https://a/x" c3resp rfl
      "Wed Jan 28 2026 10:30:29 GMT".toList (by decide)).1
    ⟨2026, 1, 28, 10, 30, 29⟩ (by decide)

/-- Claim C4 describes the intended outcome of the worked example, but
the code disagrees on the first URL: the marker capture
`Wed Jan 28 2026 10:30:29 GMT+0000` is rejected by
`strptime` (`%Z` consumes only `GMT`, leaving `+0000` unconverted), so
the first URL falls through to the run date instead of `2026-01-28`;
the second URL resolves from its header as expected. -/
theorem example_mapping_on_code :
    fetch_lastmod_dates true exampleNet "2026-09-09"
        ["https://a/x", "https://a/y"] ["https://a/x", "https://a/y"] =
      [("https://a/x", "2026-09-09"), ("https://a/y", "2026-01-02")] ∧
    ("2026-09-09" : String) ≠ "2026-01-28" := by
  constructor
  · decide
  · decide

/-- Claim C7: a task that raises inside the worker pool still yields
the run date for its URL, the result mapping covers exactly the
completed URLs, and the value of every other URL is determined by its
own completions alone. -/
theorem task_failure_isolation (today : String)
    (completions : List (String × Option String)) (u : String)
    (hfail : (u, (none : Option String)) ∈ completions)
    (honce : (completions.map Prod.fst).count u = 1) :
    dictLookup (processCompletions today completions) u = some today ∧
    (∀ v, v ∈ dictKeys (processCompletions today completions) ↔
      v ∈ completions.map Prod.fst) ∧
    (∀ (other : List (String × Option String)) (v : String), v ≠ u →
      other.filter (fun c => c.1 = v) = completions.filter (fun c => c.1 = v) →
      dictLookup (processCompletions today other) v =
        dictLookup (processCompletions today completions) v) := by
  refine ⟨?_, ?_, ?_⟩
  · have h := foldl_dictInsert_lookup Prod.fst
      (fun c : String × Option String => taskValue today c.2) completions [] u
    refine h.trans ?_
    rw [filter_fst_single completions u none hfail honce]
    rfl
  · intro v
    have h := foldl_dictInsert_keys_mem Prod.fst
      (fun c : String × Option String => taskValue today c.2) completions [] v
    simpa [dictKeys] using h
  · intro other v _ hfilter
    have h1 := foldl_dictInsert_lookup Prod.fst
      (fun c : String × Option String => taskValue today c.2) other [] v
    have h2 := foldl_dictInsert_lookup Prod.fst
      (fun c : String × Option String => taskValue today c.2) completions [] v
    refine h1.trans (Eq.trans ?_ h2.symm)
    rw [hfilter]

/-- Witness for C7: of two completed tasks the second raised; its URL
gets the run date. -/
theorem task_failure_isolation_witness :
    dictLookup (processCompletions "2026-01-01"
      [("https://a/x", some "2026-01-05"), ("https://a/y", none)]) "https://a/y" =
      some "2026-01-01" :=
  (task_failure_isolation "2026-01-01"
      [("https://a/x", some "2026-01-05"), ("https://a/y", none)] "https://a/y"
      (by decide) (by decide)).1

/-- Claim C8: the fetcher inspects only the first 1000 characters of
the decoded body — two responses agreeing on that prefix and on their
headers resolve identically — and when no marker match lies within the
prefix the result is decided by the header strategy or the
fallback. -/
theorem body_truncation (net netB : Net) (today url : String)
    (resp respB : HttpResponse)
    (h : net url = some resp) (hB : netB url = some respB)
    (hbody : resp.body.toList.take 1000 = respB.body.toList.take 1000)
    (hheaders : resp.headers = respB.headers) :
    get_lastmod_from_server net today url = get_lastmod_from_server netB today url ∧
    (searchMarker (resp.body.toList.take 1000) = none →
      get_lastmod_from_server net today url = lastModHeaderOrToday resp today) := by
  have hcongr := lastModHeaderOrToday_congr resp respB today hheaders
  constructor
  · simp only [get_lastmod_from_server, h, hB, hbody, hcongr]
  · intro hm
    simp only [get_lastmod_from_server, h, hm]

set_option maxRecDepth 40000 in
/-- Witness for C8: a body of 1000 filler characters followed by a
valid marker resolves exactly like its 1000-character truncation, to
the header's date rather than the marker's. -/
theorem body_truncation_witness :
    get_lastmod_from_server (fun _ => some c8resp) "2026-09-09" "https://a/x" =
      get_lastmod_from_server (fun _ => some c8respB) "2026-09-09" "https://a/x" ∧
    get_lastmod_from_server (fun _ => some c8resp) "2026-09-09" "https://a/x" =
      lastModHeaderOrToday c8resp "2026-09-09" :=
  ⟨(body_truncation (fun _ => some c8resp) (fun _ => some c8respB) "2026-09-09"
      "https://a/x" c8resp c8respB rfl rfl (by decide) rfl).1,
   (body_truncation (fun _ => some c8resp) (fun _ => some c8respB) "2026-09-09"
      "https://a/x" c8resp c8respB rfl rfl (by decide) rfl).2 (by decide)⟩

/-- Claim C10: `organize_urls` places every input URL into its
category paired with its resolved date, and a URL absent from the
date mapping is paired with the run date via the defaulting lookup. -/
theorem organize_defaults (urls : List String) (lastmod_dates : List (String × String))
    (today url : String) (hmem : url ∈ urls) :
    (url, (dictLookup lastmod_dates url).getD today) ∈
      organize_urls urls lastmod_dates today (categorize_url url) ∧
    (dictLookup lastmod_dates url = none →
      (url, today) ∈ organize_urls urls lastmod_dates today (categorize_url url)) := by
  have h := organize_defaults_aux lastmod_dates today urls emptyCategories url hmem
  refine ⟨h, fun hnone => ?_⟩
  have he : (url, today) = (url, (dictLookup lastmod_dates url).getD today) := by
    rw [hnone]
    rfl
  rw [he]
  exact h

/-- Witness for C10: a URL missing from an empty date mapping is
placed into its category with the run date. -/
theorem organize_defaults_witness :
    ("https://www.quickreply.ai/blog/a", "2026-02-03") ∈
      organize_urls ["https://www.quickreply.ai/blog/a"] [] "2026-02-03"
        (categorize_url "https://www.quickreply.ai/blog/a") :=
  (organize_defaults ["https://www.quickreply.ai/blog/a"] [] "2026-02-03"
      "https://www.quickreply.ai/blog/a" (by decide)).2 rfl
